import Mathlib

/-!
# Verification of the projectrestore restoration engine

Shallow embedding of the projectrestore repository:

* `projectrestore/restore_engine.py` (present in the source tree) — the
  manifest restorer `restore_snapshot`, embedded faithfully below.
* `projectrestore/cli.py` and `projectrestore/modules/locking.py` are not in
  the source tree; only their test suites (`tests/test_cli.py`,
  `tests/modules/test_locking.py`) are.  The archive extractor, the member
  sanitizer and the PID lock are therefore modelled from the specification
  (each such definition carries a doc comment starting `Modelled from the
  spec:`), kept consistent with the behaviour pinned down by the tests.

Paths are POSIX: a path is split on `/` into components; absolute paths that
went through `os.path.abspath` are represented by their normalized component
lists.
-/

namespace ProjectRestore

/-! ## POSIX path normalization (os.path.normpath, componentwise)

`normPush` is one step of Python's `posixpath.normpath` component loop: the
accumulator `stack` holds the already-normalized components in reverse order.
`rel = true` is the semantics for relative paths (a `..` hitting an empty
stack is kept), `rel = false` for absolute paths (such a `..` is dropped). -/

def normPush (rel : Bool) (stack : List String) (c : String) : List String :=
  if c = "" ∨ c = "." then stack
  else if c = ".." then
    match stack with
    | [] => if rel then [".."] else []
    | top :: rest => if top = ".." then ".." :: top :: rest else rest
  else c :: stack

/-- Reverse-order accumulator after processing all components. -/
def normStack (rel : Bool) (cs : List String) : List String :=
  cs.foldl (normPush rel) []

/-- The normalized component list of a path given by components `cs`
(what `os.path.normpath` produces, before joining with `/`;
an empty result corresponds to normpath's `"."`). -/
def normComps (rel : Bool) (cs : List String) : List String :=
  (normStack rel cs).reverse

/-- Character-level split on a separator, with the same grouping as
`String.splitOn` for a one-character separator. -/
def splitChars (sep : Char) : List Char → List (List Char)
  | [] => [[]]
  | c :: cs =>
    let r := splitChars sep cs
    if c = sep then [] :: r
    else
      match r with
      | [] => [[c]]
      | g :: gs => (c :: g) :: gs

/-- Split a path string on the POSIX separator (`path.split("/")`). -/
def posixSplit (s : String) : List String :=
  (splitChars '/' s.data).map fun g => String.mk g

/-- Whether a POSIX path is absolute (`os.path.isabs`: starts with `/`). -/
def isAbsPath (p : String) : Bool :=
  match p.data with
  | [] => false
  | c :: _ => c = '/'

/-- A component of an already-normalized absolute path: nonempty and not a
dot segment. -/
def goodComp (c : String) : Bool := c ≠ "" && c ≠ "." && c ≠ ".."

/-! ## Member-name sanitizer (projectrestore/cli.py, not in the source tree) -/

/-- Drop every leading `/` of a character list. -/
def dropSlashList : List Char → List Char
  | '/' :: cs => dropSlashList cs
  | cs => cs

/-- Drop every leading `/` of a raw member name (`name.lstrip("/")` on a
path whose only stripped characters are separators). -/
def dropLeadingSlashes (s : String) : String :=
  String.mk (dropSlashList s.data)

/-- Join normalized components back into a path string (no separator is ever
inside a component, so this is the inverse of `posixSplit` on such lists). -/
def joinComps : List String → String
  | [] => ""
  | [c] => c
  | c :: cs => c ++ "/" ++ joinComps cs

/-- Modelled from the spec: the component-level core of
`projectrestore.cli._sanitize_member_name` (the module is absent from the
source tree; behaviour per spec §4.1 and `TestSanitizeMemberName` in
`tests/test_cli.py`).  An empty raw name is rejected; a leading separator is
stripped and the rest treated as relative; the remainder is normalized; a
normal form starting with a parent-traversal segment is rejected.  `none` is
a rejection, `some cs` the accepted normalized components (empty `cs` renders
as the empty string, as in the test case `"." ↦ ""`). -/
def sanitizeComps (name : String) : Option (List String) :=
  if name = "" then none
  else
    let cs := normComps true (posixSplit (dropLeadingSlashes name))
    if cs.head? = some ".." then none else some cs

/-- Modelled from the spec: `projectrestore.cli._sanitize_member_name`,
rendering the accepted components as the emitted relative path string. -/
def _sanitize_member_name (name : String) : Option String :=
  (sanitizeComps name).map joinComps

/-! ## Manifest restorer (projectrestore/restore_engine.py, in the source
tree at src/projectrestore/restore_engine.py) -/

/-- The zero-trust validation of a manifest key in `restore_snapshot`
(restore_engine.py line 64):
`os.path.isabs(rel_path) or ".." in os.path.normpath(rel_path).split(os.sep)`.
For a non-absolute path the components of `normpath(p).split(sep)` are
exactly `normComps true (posixSplit p)` (with the `"."` fallback for the
empty normal form, which contains no `..` either). -/
def unsafeManifestPath (p : String) : Bool :=
  isAbsPath p || (normComps true (posixSplit p)).contains ".."

/-- A manifest entry: version-1 entries are a bare hash string, version-2
entries are a record (`hash` read with `.get`, so possibly absent). -/
inductive ManifestEntry where
  | v1 (hash : String)
  | v2 (hash : Option String) (mode : Option Nat) (mtime : Option Nat)
deriving DecidableEq

/-- The hash resolved for an entry (`entry` itself for v1, `entry.get("hash")`
for v2). -/
def entryHash : ManifestEntry → Option String
  | .v1 h => some h
  | .v2 h _ _ => h

/-- A Python path value, as handed to `os.path.commonpath`: an
absolute/relative flag plus the split components. -/
structure PyPath where
  absolute : Bool
  comps : List String
deriving DecidableEq

/-- Longest common component run of two paths (what
`os.path.commonpath([a, b])` keeps for exactly two arguments). -/
def commonRoot : List String → List String → List String
  | a :: as, b :: bs => if a = b then a :: commonRoot as bs else []
  | _, _ => []

/-- Model of `os.path.commonpath([a, b])`: raises `ValueError` on an absolute/relative
mix, otherwise the common component run. -/
def commonpathE (a b : PyPath) : Except String (List String) :=
  if a.absolute = b.absolute then .ok (commonRoot a.comps b.comps)
  else .error "Can't mix absolute and relative paths"

/-- Character-level check that `needle` begins `hay`. -/
def listStarts : List Char → List Char → Bool
  | _, [] => true
  | [], _ :: _ => false
  | a :: as, b :: bs => a == b && listStarts as bs

/-- Character-level check that `needle` occurs contiguously in the haystack. -/
def listHasRun (needle : List Char) : List Char → Bool
  | [] => listStarts [] needle
  | c :: rest => listStarts (c :: rest) needle || listHasRun needle rest

/-- Substring test used to model Python's `"Vault" in str(e)`. -/
def strContains (hay needle : String) : Bool :=
  listHasRun needle.data hay.data

/-- The safety-check prologue of `restore_snapshot` (restore_engine.py lines
28–35): inside a `try`, raise `ValueError` if the destination is inside the
vault or vice versa; an except-clause re-raises only errors whose text
mentions `Vault`, silently swallowing `commonpath`'s own failures.  `some
msg` models the surviving raised `ValueError`, `none` means the check passed
or was skipped. -/
def safetyCheckE (vault dest : PyPath) : Option String :=
  match commonpathE vault dest with
  | .error e => if strContains e "Vault" then some e else none
  | .ok c =>
    if c = vault.comps then some "Destination path is inside the Vault."
    else if c = dest.comps then some "Vault path is inside the Destination path."
    else none

/-- Environment of one `restore_snapshot` call: the manifest contents and the
outcome of each filesystem interaction the engine performs. -/
structure RestoreEnv where
  /-- Whether `manifest.load_manifest` succeeds. -/
  manifestReadable : Bool
  /-- Value of `snapshot_data.get("version", 1)`. -/
  version : Nat
  /-- Value of `snapshot_data.get("files", \x7b\x7d)` as an association list in iteration
  order. -/
  files : List (String × ManifestEntry)
  /-- Whether `os.path.exists(objects_dir)` holds. -/
  objectsDirExists : Bool
  /-- Whether `os.path.exists(objects_dir/hash)` holds, per hash. -/
  objects : String → Bool
  /-- Whether `cas.restore_object_to_file` succeeds for this relative path. -/
  restoreOk : String → Bool
  /-- Whether the `os.chmod` and `os.utime` metadata application succeeds for this path. -/
  metaOk : String → Bool

/-- Mutable state of the restore walk: lines printed so far, destination
relative paths whose content has been restored, and the two counters. -/
structure RState where
  printed : List String
  written : List String
  restored : Nat
  skipped : Nat
deriving DecidableEq

/-- A Python-level abnormal exit of `restore_snapshot`: a raised
`ValueError`, a raised `TypeError`, or `sys.exit(code)`. -/
inductive PyExit where
  | valueError (msg : String)
  | typeError
  | sysExit (code : Nat)
deriving DecidableEq

def skipLine (p : String) : String :=
  "WARNING: Skipping unsafe path '" ++ p ++ "'"

def missingLine (h p : String) : String :=
  "ERROR: Missing object " ++ h ++ " for file " ++ p

def metaWarnLine (p : String) : String :=
  "Warning: Failed to apply metadata for " ++ p

def failLine (p : String) : String :=
  "Failed to restore " ++ p

def restoringLine (p : String) : String :=
  "Restoring: " ++ p

def summaryLine (r s : Nat) : String :=
  "Restore complete. Restored: " ++ toString r ++ ", Skipped/Failed: "
    ++ toString s

/-- One iteration of the `for rel_path, entry in files.items()` loop of
`restore_snapshot` (restore_engine.py lines 62–112).  An unsafe path is
skipped; a v2 entry with no hash raises `TypeError` (`os.path.join` with
`None` at line 79, outside any handler); a hash absent from the object store
is skipped with a report; a `cas` failure is caught and skipped; a metadata
failure after a successful restore is caught, logged and still counted as
restored. -/
def restoreStep (env : RestoreEnv) (st : RState) (pe : String × ManifestEntry) :
    Except PyExit RState :=
  if unsafeManifestPath pe.1 then
    .ok { st with printed := st.printed ++ [skipLine pe.1],
                  skipped := st.skipped + 1 }
  else
    match entryHash pe.2 with
    | none => .error .typeError
    | some h =>
      if env.objects h then
        if env.restoreOk pe.1 then
          let metaLines :=
            match pe.2 with
            | .v1 _ => []
            | .v2 _ _ _ => if env.metaOk pe.1 then [] else [metaWarnLine pe.1]
          .ok { st with
            printed := st.printed ++ metaLines ++ [restoringLine pe.1],
            written := st.written ++ [pe.1],
            restored := st.restored + 1 }
        else
          .ok { st with printed := st.printed ++ [failLine pe.1],
                        skipped := st.skipped + 1 }
      else
        .ok { st with printed := st.printed ++ [missingLine h pe.1],
                      skipped := st.skipped + 1 }

/-- The manifest walk: sequential, stopping only at an uncaught exception. -/
def restoreLoop (env : RestoreEnv) :
    List (String × ManifestEntry) → RState → RState × Option PyExit
  | [], st => (st, none)
  | pe :: rest, st =>
    match restoreStep env st pe with
    | .error e => (st, some e)
    | .ok st' => restoreLoop env rest st'

/-- Render an absolute component list back to a path string. -/
def renderAbs (cs : List String) : String :=
  "/" ++ joinComps cs

/-- The observable outcome of `restore_snapshot`: everything printed, every
file written, the final counters, and `pyReturn` — the Python return value
of the function (the source is annotated `-> None` and has no `return`
statement, so it is always `none`). -/
structure RestoreResult where
  printed : List String
  written : List String
  restored : Nat
  skipped : Nat
  pyReturn : Option (Nat × Nat)
deriving DecidableEq

/-- Embedding of `restore_snapshot(manifest_path, destination_path)` of
`projectrestore/restore_engine.py`, over the absolute forms of its two path
arguments (the results of the `os.path.abspath` calls at lines 24–25,
represented by their normalized components).  The vault root is the
grandparent directory of the manifest (line 26).  Faithful phases: safety
check, manifest load (`sys.exit(1)` on failure), objects-directory check
(`sys.exit(1)` if absent), `os.makedirs(destination)`, then the per-entry
walk, then the printed summary.  Hooks are external collaborators and are
not modelled. -/
def restore_snapshot (absManifest absDest : List String) (env : RestoreEnv) :
    RestoreResult × Option PyExit :=
  let vault := absManifest.dropLast.dropLast
  match safetyCheckE ⟨true, vault⟩ ⟨true, absDest⟩ with
  | some msg => (⟨[], [], 0, 0, none⟩, some (.valueError msg))
  | none =>
    let l1 := ["Loading manifest from: " ++ renderAbs absManifest]
    if env.manifestReadable then
      let l2 := l1 ++ ["Snapshot Version: " ++ toString env.version]
      if env.objectsDirExists then
        let l3 := l2 ++ ["Restoring to: " ++ renderAbs absDest]
        match restoreLoop env env.files ⟨l3, [], 0, 0⟩ with
        | (st, some e) => (⟨st.printed, st.written, st.restored, st.skipped, none⟩, some e)
        | (st, none) =>
          (⟨st.printed ++ [summaryLine st.restored st.skipped], st.written,
            st.restored, st.skipped, none⟩, none)
      else (⟨l2 ++ ["Error: Objects directory not found"], [], 0, 0, none⟩,
            some (.sysExit 1))
    else (⟨l1 ++ ["Failed to load manifest"], [], 0, 0, none⟩,
          some (.sysExit 1))

/-! ## Atomic extractor (projectrestore/cli.py, not in the source tree)

The extractor `safe_extract_atomic` and its helpers are modelled from spec
§4.1–§4.2; messages and the staging/backup naming scheme follow the tests in
`tests/test_cli.py`. -/

/-- The kind of one archive member (the tar type flag, as a closed enum). -/
inductive MemberKind where
  | reg | dir | sym | lnk | chr | blk | fifo | xhd | gnuSparse | unknown
deriving DecidableEq

/-- One entry read from the untrusted archive stream. -/
structure Member where
  name : String
  kind : MemberKind
  size : Nat
  mode : Nat
  mtime : Nat
deriving DecidableEq

/-- The restore policy for one invocation (CLI defaults: no limits,
`allow_pax=False`, `reject_sparse=True`, `dry_run=False`). -/
structure Policy where
  max_files : Option Nat
  max_bytes : Option Nat
  allow_pax : Bool
  reject_sparse : Bool
  dry_run : Bool
deriving DecidableEq

/-- Modelled from the spec: the verdict of the member policy validator
(§4.1) on one member. -/
inductive VResult where
  | acceptFile (path : String)
  | acceptDir (path : String)
  | skip
  | reject (reason : String)
deriving DecidableEq

/-- Modelled from the spec: the rejection reason attached to a forbidden
member kind (§4.1 items 1–3): symlinks/hardlinks and special devices or
fifos are rejected unconditionally, sparse members when `reject_sparse`. -/
def badKindReason (pol : Policy) : MemberKind → Option String
  | .sym | .lnk => some "Tar contains symlink/hardlink member"
  | .chr | .blk | .fifo => some "Tar contains special device/fifo member"
  | .gnuSparse =>
    if pol.reject_sparse then some "Rejecting sparse/gnu-special member"
    else none
  | _ => none

/-- Modelled from the spec: the member policy validator of §4.1 — sanitize
the raw name first, then apply the type policy in order (links, devices,
sparse, pax headers, directory, regular file, catch-all rejection). -/
def validateMember (pol : Policy) (m : Member) : VResult :=
  match sanitizeComps m.name with
  | none => .reject ("Tar member has unsafe path: " ++ m.name)
  | some cs =>
    match m.kind with
    | .sym | .lnk => .reject "Tar contains symlink/hardlink member"
    | .chr | .blk | .fifo => .reject "Tar contains special device/fifo member"
    | .gnuSparse =>
      if pol.reject_sparse then .reject "Rejecting sparse/gnu-special member"
      else .reject "Unsupported or disallowed tar member type"
    | .xhd =>
      if pol.allow_pax then .skip
      else .reject "Unsupported or disallowed tar member type"
    | .dir => .acceptDir (joinComps cs)
    | .reg => .acceptFile (joinComps cs)
    | .unknown => .reject "Unsupported or disallowed tar member type"

/-- Error taxonomy of the extractor (spec §4.2/§7). -/
inductive ExtractErr where
  | notFound (msg : String)
  | conflict (msg : String)
  | policy (msg : String)
  | resourceLimit (msg : String)
  | swapFail (msg : String)
deriving DecidableEq

/-- One entry of the staging tree: its final relative path, whether it is a
directory, and the size/mode/mtime applied to it. -/
structure StagedEntry where
  path : String
  isDir : Bool
  size : Nat
  mode : Nat
  mtime : Nat
deriving DecidableEq

/-- Modelled from the spec: strip the set-uid (0o4000) and set-gid (0o2000)
bits — `mode & ~(stat.S_ISUID | stat.S_ISGID)` — keeping bits 0–9 and every
bit from 12 up. -/
def stripDangerous (m : Nat) : Nat :=
  m % 1024 + 1024 * (4 * (m / 4096))

/-- Modelled from the spec: `_write_fileobj_to_path` substitutes the safe
default mode 0o644 for a declared mode of 0 (`TestWriteFileobjToPath`). -/
def effectiveMode (m : Nat) : Nat := if m = 0 then 420 else m

/-- Running state of the extraction loop: accepted-regular-file count,
cumulative declared size, and the staging tree built so far. -/
structure LState where
  count : Nat
  bytes : Nat
  tree : List StagedEntry
deriving DecidableEq

/-- Whether a running value exceeds an optional limit. -/
def overLimit : Option Nat → Nat → Bool
  | none, _ => false
  | some n, v => decide (n < v)

/-- Modelled from the spec: process one archive member (§4.1/§4.2 step 3) —
validate it, enforce `max_files`/`max_bytes` before writing each accepted
regular file, write accepted content into the staging tree with the
dangerous mode bits stripped after writing. -/
def processMember (pol : Policy) (st : LState) (m : Member) :
    Except ExtractErr LState :=
  match validateMember pol m with
  | .reject r => .error (.policy r)
  | .skip => .ok st
  | .acceptDir p =>
    .ok { st with tree := st.tree ++ [⟨p, true, 0, m.mode, m.mtime⟩] }
  | .acceptFile p =>
    let c := st.count + 1
    if overLimit pol.max_files c then
      .error (.resourceLimit "Archive exceeds max-files limit")
    else
      let b := st.bytes + m.size
      if overLimit pol.max_bytes b then
        .error (.resourceLimit "Archive exceeds max-bytes limit")
      else
        .ok { count := c, bytes := b,
              tree := st.tree ++
                [⟨p, false, m.size, stripDangerous (effectiveMode m.mode),
                  m.mtime⟩] }

/-- Modelled from the spec: the single sequential pass over the archive
members, aborting at the first rejection or exceeded limit. -/
def extractLoop (pol : Policy) :
    List Member → LState → Except ExtractErr LState
  | [], st => .ok st
  | m :: ms, st =>
    match processMember pol st m with
    | .error e => .error e
    | .ok st' => extractLoop pol ms st'

/-- Fault-injection environment of one `safe_extract_atomic` call: existence
checks and the success of each rename step of the swap protocol. -/
structure ExtractEnv where
  archiveExists : Bool
  stagingExists : Bool
  pid : Nat
  ts : Nat
  /-- Rename destination → backup succeeds. -/
  renameOldOk : Bool
  /-- Rename staging → destination (the final rename of the swap) succeeds. -/
  renameNewOk : Bool
  /-- Rename backup → destination (the rollback) succeeds. -/
  rollbackOk : Bool
  /-- Best-effort `shutil.rmtree` of the backup succeeds. -/
  rmBackupOk : Bool
deriving DecidableEq

/-- Contents at the destination path and at the backup path (`none` when the
path does not exist). The staging tree lives at a private sibling path and
is never externally visible, so it is not part of the observable state. -/
structure FS where
  dest : Option (List StagedEntry)
  backup : Option (List StagedEntry)
deriving DecidableEq

/-- The deterministic backup path name `dest.old_<pid>_<ts>`
(`test_rollback_fail`). -/
def backupName (destName : String) (pid ts : Nat) : String :=
  destName ++ ".old_" ++ toString pid ++ "_" ++ toString ts

/-- The log line emitted when the rollback rename itself fails, naming the
backup path that still holds the pre-call destination state. -/
def rollbackFailLog (b : String) : String :=
  "Rollback failed; manual intervention required. Backup left at " ++ b

/-- Observable outcome of `safe_extract_atomic`: the filesystem, the log
lines, and the raised error if any. -/
structure ExtractOut where
  fs : FS
  logs : List String
  result : Except ExtractErr Unit

/-- Modelled from the spec: the atomic swap (§4.2 step 4–5).  With no
pre-existing destination, rename staging → destination directly.  Otherwise
rename destination → backup, then staging → destination; if the latter
fails, rename the backup back (rollback); if the rollback also fails, leave
the backup in place and log its exact path.  On success the backup is
removed best-effort. -/
def swapPhase (env : ExtractEnv) (destName : String) (fs : FS)
    (tree : List StagedEntry) : ExtractOut :=
  match fs.dest with
  | none =>
    if env.renameNewOk then ⟨⟨some tree, fs.backup⟩, [], .ok ()⟩
    else ⟨fs, ["Failed during swap/rename"],
          .error (.swapFail "swap rename failed")⟩
  | some old =>
    if env.renameOldOk then
      if env.renameNewOk then
        if env.rmBackupOk then ⟨⟨some tree, none⟩, [], .ok ()⟩
        else ⟨⟨some tree, some old⟩,
              ["Failed to remove backup directory (non-fatal)"], .ok ()⟩
      else
        if env.rollbackOk then
          ⟨⟨some old, none⟩, ["Failed during swap/rename"],
           .error (.swapFail "swap rename failed")⟩
        else
          ⟨⟨none, some old⟩,
           ["Failed during swap/rename",
            rollbackFailLog (backupName destName env.pid env.ts)],
           .error (.swapFail "swap rename failed")⟩
    else ⟨fs, ["Failed during swap/rename"],
          .error (.swapFail "swap rename failed")⟩

/-- Modelled from the spec: `safe_extract_atomic(archive, dest, ...)` (§4.2).
Verify the archive exists and the deterministic staging path is free; stream
every member through validation into a private staging tree (discarded whole
on any rejection or exceeded limit — the destination is untouched); in
dry-run mode discard the staging tree as well; otherwise perform the atomic
swap. -/
def safe_extract_atomic (archive : List Member) (pol : Policy)
    (env : ExtractEnv) (destName : String) (fs : FS) : ExtractOut :=
  if env.archiveExists then
    if env.stagingExists then
      ⟨fs, [], .error (.conflict "Temp extraction dir unexpectedly exists")⟩
    else
      match extractLoop pol archive ⟨0, 0, []⟩ with
      | .error e => ⟨fs, [], .error e⟩
      | .ok st =>
        if pol.dry_run then ⟨fs, ["Dry-run: validating archive"], .ok ()⟩
        else swapPhase env destName fs st.tree
  else ⟨fs, [], .error (.notFound "Archive not found")⟩

/-! ## Exclusivity lock (projectrestore/modules/locking.py, not in the
source tree) -/

/-- A lock file on disk: the recorded process id (`none` when the content is
unreadable as a pid) and the file's modification time. -/
structure LockFile where
  pid : Option Nat
  mtime : Nat
deriving DecidableEq

/-- Environment of one `create_pid_lock` attempt. -/
structure LockEnv where
  /-- The pre-existing lock file, if any. -/
  existing : Option LockFile
  /-- Liveness probe for a recorded process id (signal-0 equivalent). -/
  alive : Nat → Bool
  /-- Current time, seconds. -/
  now : Nat
  /-- The calling process id. -/
  callerPid : Nat
  /-- Whether `os.unlink` of a stale lock file succeeds. -/
  removeOk : Bool

/-- Outcome of `create_pid_lock`: the lock is held (with the new on-disk
lock file), or the invocation terminates via `sys.exit(code)`. -/
inductive LockResult where
  | acquired (lockfile : LockFile)
  | exitCode (c : Nat)
deriving DecidableEq

/-- Modelled from the spec: `create_pid_lock(lock_path, stale_seconds)`
(§4.4, `TestLocking`).  No lock file: write the caller's pid.  Owner alive:
`sys.exit(3)`.  Owner dead or unreadable: reclaim (remove, retry once,
acquire) when the file age reaches `stale_seconds`, else `sys.exit(3)`; a
failed removal is terminal (`sys.exit(3)`). -/
def create_pid_lock (env : LockEnv) (stale_seconds : Nat) : LockResult :=
  match env.existing with
  | none => .acquired ⟨some env.callerPid, env.now⟩
  | some lf =>
    let ownerAlive := match lf.pid with
      | some p => env.alive p
      | none => false
    if ownerAlive then .exitCode 3
    else if stale_seconds ≤ env.now - lf.mtime then
      if env.removeOk then .acquired ⟨some env.callerPid, env.now⟩
      else .exitCode 3
    else .exitCode 3

/-! ## Witness fixtures -/

/-- Fixture for the C10 witness. -/
def envW : RestoreEnv :=
  ⟨true, 1, [], true, fun _ => true, fun _ => true, fun _ => true⟩

/-- Fixture for manifest-restorer witnesses: one safe entry, every object
present, every write succeeding. -/
def envAllOk : RestoreEnv :=
  ⟨true, 1, [("d/f.txt", .v1 "h1")], true,
   fun _ => true, fun _ => true, fun _ => true⟩

/-- Fixture for the C7 witness: an object store with every hash missing. -/
def envNoObjects : RestoreEnv :=
  ⟨true, 1, [("a.txt", .v1 "h1")], true,
   fun _ => false, fun _ => true, fun _ => true⟩

/-- Fixture: the CLI default policy (no limits, pax disallowed, sparse
rejected, live mode). -/
def polDefault : Policy := ⟨none, none, false, true, false⟩

/-- Fixture: the regular file of the sample archive of the tests. -/
def memFile1 : Member := ⟨"mydir/file.txt", .reg, 20, 420, 5⟩

/-- Fixture: a second regular file, as in `test_max_files_limit`. -/
def memExtra : Member := ⟨"extra.txt", .reg, 5, 420, 5⟩

/-- Fixture: a symlink member, as in `test_reject_symlink`. -/
def memLink : Member := ⟨"symlink", .sym, 0, 0, 5⟩

/-- Fixture: a directory member. -/
def memDir : Member := ⟨"d", .dir, 0, 493, 5⟩

/-- Fixture: a regular file declaring set-uid and set-gid bits (0o6755). -/
def memSuid : Member := ⟨"d/f.txt", .reg, 2, 3565, 5⟩

/-- Fixture: an extraction environment where every filesystem step works. -/
def exEnvOk : ExtractEnv := ⟨true, false, 999, 1234567890, true, true, true, true⟩

/-- Fixture: the final swap rename and the rollback rename both fail. -/
def exEnvRollFail : ExtractEnv :=
  ⟨true, false, 999, 1234567890, true, false, false, true⟩

/-- Fixture: the pre-call content of an existing destination. -/
def oldTree : List StagedEntry := [⟨"existing.txt", false, 3, 420, 5⟩]

/-- Fixture: a filesystem with an existing destination and no backup. -/
def fsOld : FS := ⟨some oldTree, none⟩

/-- Fixture: a filesystem with no destination yet. -/
def fsEmpty : FS := ⟨none, none⟩

/-- Fixture: a lock file recording a dead process, one whose recorded owner
is alive, and a dead-owner file too young to reclaim. -/
def lockEnvStale : LockEnv :=
  ⟨some ⟨some 12345, 100⟩, fun _ => false, 4100, 777, true⟩

/-- Fixture: a lock whose recorded owner is alive. -/
def lockEnvAlive : LockEnv :=
  ⟨some ⟨some 99999, 100⟩, fun _ => true, 200, 777, true⟩

/-- Fixture: a dead-owner lock file younger than the staleness threshold. -/
def lockEnvYoung : LockEnv :=
  ⟨some ⟨some 12345, 100⟩, fun _ => false, 1100, 777, true⟩

/-! ### Normalization lemmas -/

theorem dotdot_mem_normPush {s : List String} (rel : Bool) (c : String)
    (h : ".." ∈ s) : ".." ∈ normPush rel s c := by
  unfold normPush
  split
  · exact h
  · split
    · cases s with
      | nil => cases h
      | cons top rest =>
        simp only
        split
        · exact List.mem_cons_self _ _
        · next hne =>
          rcases List.mem_cons.mp h with h1 | h2
          · exact absurd h1.symm hne
          · exact h2
    · exact List.mem_cons_of_mem _ h

theorem dotdot_mem_normStack_aux (rel : Bool) (cs : List String) :
    ∀ s, ".." ∈ s → ".." ∈ cs.foldl (normPush rel) s := by
  induction cs with
  | nil => intro s h; exact h
  | cons c cs ih =>
    intro s h
    exact ih _ (dotdot_mem_normPush rel c h)

/-- Once the relative normalizer has pushed a `..`, it stays:
in a stack that contains `..`, the bottom run of `..`s is never popped;
we only need that membership of `..` is monotone along the fold. -/
theorem dotdot_persists (rel : Bool) (cs : List String) {s : List String}
    (h : ".." ∈ s) : ".." ∈ cs.foldl (normPush rel) s :=
  dotdot_mem_normStack_aux rel cs s h

/-- If the relative normalization of `cs` (from stack `s`) contains no `..`,
then normalizing from the deeper stack `s ++ t` (with either semantics)
leaves `t` untouched underneath. -/
theorem normFold_append (rel : Bool) (cs : List String) :
    ∀ s t : List String, ".." ∉ cs.foldl (normPush true) s →
      cs.foldl (normPush rel) (s ++ t) = cs.foldl (normPush true) s ++ t := by
  induction cs with
  | nil => intro s t _; rfl
  | cons c cs ih =>
    intro s t h
    simp only [List.foldl_cons] at h ⊢
    have hs : ".." ∉ s := fun hm =>
      h (dotdot_persists true cs (dotdot_mem_normPush true c hm))
    have hstep : normPush rel (s ++ t) c = normPush true s c ++ t := by
      by_cases h0 : c = "" ∨ c = "."
      · simp only [normPush, if_pos h0]
      · by_cases h1 : c = ".."
        · subst h1
          cases s with
          | nil =>
            exfalso
            apply h
            have e : normPush true [] ".." = [".."] := by
              simp [normPush, h0]
            rw [e]
            exact dotdot_persists true cs (by simp)
          | cons top rest =>
            by_cases h2 : top = ".."
            · subst h2
              simp [normPush, h0, List.cons_append]
            · simp [normPush, h0, h2, List.cons_append]
        · simp only [normPush, if_neg h0, if_neg h1, List.cons_append]
    rw [hstep]
    exact ih (normPush true s c) t h

/-- Normalizing a list of good components just reverses it onto the stack. -/
theorem normFold_goodComps (rel : Bool) :
    ∀ ds : List String, (∀ c ∈ ds, goodComp c = true) →
      ∀ s, ds.foldl (normPush rel) s = ds.reverse ++ s := by
  intro ds
  induction ds with
  | nil => intro _ s; rfl
  | cons c cs ih =>
    intro hd s
    have hc := hd c (List.mem_cons_self _ _)
    simp only [goodComp, Bool.and_eq_true, decide_eq_true_eq] at hc
    have h0 : ¬(c = "" ∨ c = ".") := by
      rintro (h | h) <;> [exact hc.1.1 h; exact hc.1.2 h]
    have hstep : normPush rel s c = c :: s := by
      simp only [normPush, if_neg h0, if_neg hc.2]
    simp only [List.foldl_cons, hstep]
    rw [ih (fun x hx => hd x (List.mem_cons_of_mem _ hx)) (c :: s)]
    simp

/-- Resolving components `cs` underneath a normalized absolute destination
`ds` (absolute-path semantics) appends the relative normal form of `cs`
below `ds`, provided that the normal form has no parent-traversal segment. -/
theorem resolve_eq_append (ds : List String)
    (hd : ∀ c ∈ ds, goodComp c = true) (cs : List String)
    (h : ".." ∉ normComps true cs) :
    normComps false (ds ++ cs) = ds ++ normComps true cs := by
  have h' : ".." ∉ cs.foldl (normPush true) [] := by
    intro hm
    exact h (by simpa [normComps, normStack] using hm)
  unfold normComps normStack
  rw [List.foldl_append, normFold_goodComps false ds hd []]
  rw [List.append_nil, show ds.reverse = [] ++ ds.reverse from rfl]
  rw [normFold_append false cs [] ds.reverse h']
  simp [normComps, normStack]

/-- Destination containment: a path whose relative normal form has no `..`
segment resolves strictly underneath the destination root. -/
theorem dest_prefix_of_no_dotdot (ds : List String)
    (hd : ∀ c ∈ ds, goodComp c = true) (cs : List String)
    (h : ".." ∉ normComps true cs) :
    ds <+: normComps false (ds ++ cs) := by
  rw [resolve_eq_append ds hd cs h]
  exact List.prefix_append _ _

/-- In a relative normal stack, a `..` can only sit at the bottom: if the
stack contains `..` at all, its last element is `..`. -/
theorem dotdot_at_bottom (cs : List String) :
    ".." ∈ normStack true cs → (normStack true cs).getLast? = some ".." := by
  suffices hgen : ∀ s : List String,
      (".." ∈ s → s.getLast? = some "..") →
      (".." ∈ cs.foldl (normPush true) s →
        (cs.foldl (normPush true) s).getLast? = some "..") by
    intro h
    exact hgen [] (by intro h'; cases h') h
  induction cs with
  | nil => intro s hs h; exact hs h
  | cons c cs ih =>
    intro s hs
    simp only [List.foldl_cons]
    apply ih
    intro hmem
    by_cases h0 : c = "" ∨ c = "."
    · rw [show normPush true s c = s from by simp [normPush, h0]] at hmem ⊢
      exact hs hmem
    · by_cases h1 : c = ".."
      · subst h1
        cases s with
        | nil =>
          rw [show normPush true [] ".." = [".."] from by
                simp [normPush, h0]] at hmem ⊢
          simp
        | cons top rest =>
          by_cases h2 : top = ".."
          · subst h2
            rw [show normPush true (".." :: rest) ".." = ".." :: ".." :: rest from by
                  simp [normPush, h0]] at hmem ⊢
            have hlast : (".." :: rest).getLast? = some ".." :=
              hs (List.mem_cons_self _ _)
            rw [List.getLast?_cons_cons]
            exact hlast
          · rw [show normPush true (top :: rest) ".." = rest from by
                  simp [normPush, h0, h2]] at hmem ⊢
            have hrest : (top :: rest).getLast? = some ".." :=
              hs (List.mem_cons_of_mem _ hmem)
            cases rest with
            | nil => cases hmem
            | cons r rs =>
              rw [List.getLast?_cons_cons] at hrest
              exact hrest
      · rw [show normPush true s c = c :: s from by
              simp [normPush, h0, h1]] at hmem ⊢
        have hmem' : ".." ∈ s := by
          rcases List.mem_cons.mp hmem with h' | h'
          · exact absurd h'.symm h1
          · exact h'
        have hlast := hs hmem'
        cases s with
        | nil => cases hmem'
        | cons a l =>
          rw [List.getLast?_cons_cons]
          exact hlast

/-- If the first component of the relative normal form is not `..`, then no
component is `..`. -/
theorem no_dotdot_of_head (cs : List String)
    (h : (normComps true cs).head? ≠ some "..") :
    ".." ∉ normComps true cs := by
  intro hmem
  apply h
  have hmem' : ".." ∈ normStack true cs := by
    simpa [normComps] using hmem
  have := dotdot_at_bottom cs hmem'
  rw [normComps, List.head?_reverse]
  exact this


/-! ### Common-root lemmas -/

theorem commonRoot_append_right : ∀ v t : List String, commonRoot v (v ++ t) = v := by
  intro v
  induction v with
  | nil => intro t; cases t <;> rfl
  | cons a as ih => intro t; simp [commonRoot, ih]

theorem commonRoot_append_left : ∀ d t : List String, commonRoot (d ++ t) d = d := by
  intro d
  induction d with
  | nil => intro t; cases t <;> rfl
  | cons a as ih => intro t; simp [commonRoot, ih]

/-! ### Claim C10 -/

/-- C10: before loading the manifest or writing anything, `restore_snapshot`
raises `ValueError` ("Destination path is inside the Vault." /
"Vault path is inside the Destination path.") whenever the absolute
destination lies under the vault root (the grandparent of the manifest path)
or the vault root lies strictly under the destination; and when the
common-path computation itself fails (absolute/relative mix), the
containment check is silently skipped and the restore proceeds. -/
theorem C10_vault_containment :
    (∀ (absManifest absDest : List String) (env : RestoreEnv),
       absManifest.dropLast.dropLast <+: absDest →
       restore_snapshot absManifest absDest env =
         (⟨[], [], 0, 0, none⟩,
          some (.valueError "Destination path is inside the Vault."))) ∧
    (∀ (absManifest absDest : List String) (env : RestoreEnv),
       absDest <+: absManifest.dropLast.dropLast →
       absDest ≠ absManifest.dropLast.dropLast →
       restore_snapshot absManifest absDest env =
         (⟨[], [], 0, 0, none⟩,
          some (.valueError "Vault path is inside the Destination path."))) ∧
    (∀ a b : PyPath, a.absolute ≠ b.absolute → safetyCheckE a b = none) := by
  refine ⟨?_, ?_, ?_⟩
  · intro absManifest absDest env hpre
    obtain ⟨t, ht⟩ := hpre
    have hc : safetyCheckE ⟨true, absManifest.dropLast.dropLast⟩ ⟨true, absDest⟩
        = some "Destination path is inside the Vault." := by
      simp only [safetyCheckE, commonpathE, if_pos rfl]
      rw [← ht, commonRoot_append_right]
      simp
    simp [restore_snapshot, hc]
  · intro absManifest absDest env hpre hne
    obtain ⟨t, ht⟩ := hpre
    have hc : safetyCheckE ⟨true, absManifest.dropLast.dropLast⟩ ⟨true, absDest⟩
        = some "Vault path is inside the Destination path." := by
      simp only [safetyCheckE, commonpathE, if_pos rfl]
      rw [← ht, commonRoot_append_left]
      have h1 : absDest ≠ absDest ++ t := by
        rw [ht]; exact hne
      simp [h1]
    simp [restore_snapshot, hc]
  · intro a b hab
    simp only [safetyCheckE, commonpathE, if_neg hab]
    have : strContains "Can't mix absolute and relative paths" "Vault" = false := by
      decide
    simp [this]

/-- Witness for C10 at concrete inputs: a destination inside the vault, a
vault inside the destination, and a skipped check on an absolute/relative
mix. -/
theorem C10_vault_containment_witness :
    restore_snapshot ["vault", "snaps", "m.json"] ["vault", "data"] envW =
      (⟨[], [], 0, 0, none⟩,
       some (.valueError "Destination path is inside the Vault.")) ∧
    restore_snapshot ["vault", "snaps", "m.json"] [] envW =
      (⟨[], [], 0, 0, none⟩,
       some (.valueError "Vault path is inside the Destination path.")) ∧
    safetyCheckE ⟨true, ["a"]⟩ ⟨false, ["a"]⟩ = none :=
  ⟨C10_vault_containment.1 _ _ envW ⟨["data"], rfl⟩,
   C10_vault_containment.2.1 _ _ envW ⟨["vault"], rfl⟩ (by decide),
   C10_vault_containment.2.2 _ _ (by decide)⟩

/-! ### Restore-walk lemmas -/

/-- Every single step of the manifest walk that does not raise either skips
the entry (writing nothing, counting it skipped) or restores it (appending
its safe path, counting it restored). -/
theorem restoreStep_cases (env : RestoreEnv) (st : RState)
    (pe : String × ManifestEntry) (st' : RState)
    (h : restoreStep env st pe = .ok st') :
    (st'.written = st.written ∧ st'.restored = st.restored ∧
      st'.skipped = st.skipped + 1) ∨
    (st'.written = st.written ++ [pe.1] ∧ unsafeManifestPath pe.1 = false ∧
      st'.restored = st.restored + 1 ∧ st'.skipped = st.skipped) := by
  unfold restoreStep at h
  split at h
  · simp only [Except.ok.injEq] at h
    subst h
    left; simp
  · next hu =>
    rw [Bool.not_eq_true] at hu
    split at h
    · cases h
    · split at h
      · split at h
        · simp only [Except.ok.injEq] at h
          subst h
          right; simp [hu]
        · simp only [Except.ok.injEq] at h
          subst h
          left; simp
      · simp only [Except.ok.injEq] at h
        subst h
        left; simp

/-- A step on an entry with a present hash never raises. -/
theorem restoreStep_isOk (env : RestoreEnv) (st : RState)
    (pe : String × ManifestEntry) (h : (entryHash pe.2).isSome) :
    ∃ st', restoreStep env st pe = .ok st' := by
  unfold restoreStep
  by_cases hu : unsafeManifestPath pe.1 = true
  · rw [if_pos hu]
    exact ⟨_, rfl⟩
  · rw [if_neg hu]
    obtain ⟨hsh, hh⟩ := Option.isSome_iff_exists.mp h
    rw [hh]
    dsimp only
    by_cases ho : env.objects hsh = true
    · rw [if_pos ho]
      by_cases hr : env.restoreOk pe.1 = true
      · rw [if_pos hr]
        exact ⟨_, rfl⟩
      · rw [if_neg hr]
        exact ⟨_, rfl⟩
    · rw [if_neg ho]
      exact ⟨_, rfl⟩

/-- Every path the walk writes passed the zero-trust validation. -/
theorem restoreLoop_written_inv (env : RestoreEnv) :
    ∀ (files : List (String × ManifestEntry)) (st : RState),
      (∀ p ∈ st.written, unsafeManifestPath p = false) →
      ∀ p ∈ (restoreLoop env files st).1.written,
        unsafeManifestPath p = false := by
  intro files
  induction files with
  | nil => intro st hinv; simpa [restoreLoop] using hinv
  | cons pe rest ih =>
    intro st hinv
    simp only [restoreLoop]
    cases hstep : restoreStep env st pe with
    | error e => simpa using hinv
    | ok st' =>
      simp only
      apply ih
      rcases restoreStep_cases env st pe st' hstep with ⟨hw, _⟩ | ⟨hw, hu, _⟩
      · rw [hw]; exact hinv
      · rw [hw]
        intro p hp
        rcases List.mem_append.mp hp with hp | hp
        · exact hinv p hp
        · rw [List.mem_singleton.mp hp]
          exact hu

/-- On a manifest whose entries all carry a hash, the walk finishes without
raising and each entry lands in exactly one of the two counters. -/
theorem restoreLoop_completes (env : RestoreEnv) :
    ∀ (files : List (String × ManifestEntry)) (st : RState),
      (∀ pe ∈ files, (entryHash pe.2).isSome) →
      (restoreLoop env files st).2 = none ∧
      (restoreLoop env files st).1.restored
          + (restoreLoop env files st).1.skipped
        = st.restored + st.skipped + files.length := by
  intro files
  induction files with
  | nil => intro st _; simp [restoreLoop]
  | cons pe rest ih =>
    intro st hwf
    obtain ⟨st', hstep⟩ :=
      restoreStep_isOk env st pe (hwf pe (List.mem_cons_self _ _))
    have hcts : st'.restored + st'.skipped = st.restored + st.skipped + 1 := by
      rcases restoreStep_cases env st pe st' hstep with
        ⟨_, h1, h2⟩ | ⟨_, _, h1, h2⟩ <;> omega
    have hrec := ih st' (fun x hx => hwf x (List.mem_cons_of_mem _ hx))
    simp only [restoreLoop, hstep]
    refine ⟨hrec.1, ?_⟩
    rw [hrec.2]
    simp only [List.length_cons]
    omega

/-! ### Claim C6 -/

/-- C6: a manifest entry whose relative-path key is absolute or contains a
parent-traversal segment after normalization is rejected — counted as
skipped, nothing written for it, and the walk continues with the remaining
entries — and hence every path the walk does write is validated and, against
any normalized destination root, resolves to a path under that root. -/
theorem C6_manifest_key_safety :
    (∀ (env : RestoreEnv) (st : RState) (p : String) (e : ManifestEntry)
       (rest : List (String × ManifestEntry)),
       unsafeManifestPath p = true →
       restoreLoop env ((p, e) :: rest) st =
         restoreLoop env rest
           { st with printed := st.printed ++ [skipLine p],
                     skipped := st.skipped + 1 }) ∧
    (∀ (env : RestoreEnv) (files : List (String × ManifestEntry)) (st : RState),
       st.written = [] →
       ∀ p ∈ (restoreLoop env files st).1.written,
         unsafeManifestPath p = false ∧
         ∀ ds : List String, (∀ c ∈ ds, goodComp c = true) →
           ds <+: normComps false (ds ++ posixSplit p)) := by
  constructor
  · intro env st p e rest h
    simp [restoreLoop, restoreStep, h]
  · intro env files st hw p hp
    have hsafe : unsafeManifestPath p = false := by
      apply restoreLoop_written_inv env files st _ p hp
      rw [hw]
      intro q hq
      cases hq
    refine ⟨hsafe, ?_⟩
    intro ds hds
    apply dest_prefix_of_no_dotdot ds hds
    have hsafe' := hsafe
    simp [unsafeManifestPath] at hsafe'
    exact hsafe'.2

/-- Witness for C6: the traversal key `../evil` is skipped and the walk
continues; the written key `d/f.txt` of a concrete run is validated and
resolves under the destination `/home/proj`. -/
theorem C6_manifest_key_safety_witness :
    restoreLoop envAllOk [("../evil", ManifestEntry.v1 "h2")] ⟨[], [], 0, 0⟩ =
      restoreLoop envAllOk []
        ⟨[] ++ [skipLine "../evil"], [], 0, 0 + 1⟩ ∧
    unsafeManifestPath "d/f.txt" = false ∧
    ["home", "proj"] <+:
      normComps false (["home", "proj"] ++ posixSplit "d/f.txt") :=
  ⟨C6_manifest_key_safety.1 envAllOk ⟨[], [], 0, 0⟩ "../evil"
      (ManifestEntry.v1 "h2") [] (by decide),
   (C6_manifest_key_safety.2 envAllOk envAllOk.files ⟨[], [], 0, 0⟩ rfl
      "d/f.txt" (by decide)).1,
   (C6_manifest_key_safety.2 envAllOk envAllOk.files ⟨[], [], 0, 0⟩ rfl
      "d/f.txt" (by decide)).2 ["home", "proj"] (by decide)⟩

/-! ### Claim C7 -/

/-- C7: a manifest entry whose hash has no object in the store increments the
skipped count for that path, reports the missing hash and path, and the walk
continues with the remaining entries exactly as if restarted from the
updated state; moreover a missing object never aborts the walk — on any
manifest whose entries all carry hashes the walk finishes without raising. -/
theorem C7_missing_object :
    (∀ (env : RestoreEnv) (st : RState) (p hsh : String) (e : ManifestEntry)
       (rest : List (String × ManifestEntry)),
       unsafeManifestPath p = false →
       entryHash e = some hsh →
       env.objects hsh = false →
       restoreLoop env ((p, e) :: rest) st =
         restoreLoop env rest
           { st with printed := st.printed ++ [missingLine hsh p],
                     skipped := st.skipped + 1 }) ∧
    (∀ (env : RestoreEnv) (files : List (String × ManifestEntry)) (st : RState),
       (∀ pe ∈ files, (entryHash pe.2).isSome) →
       (restoreLoop env files st).2 = none) := by
  constructor
  · intro env st p hsh e rest hu hh ho
    have hstep : restoreStep env st (p, e) =
        .ok { st with printed := st.printed ++ [missingLine hsh p],
                      skipped := st.skipped + 1 } := by
      unfold restoreStep
      rw [if_neg (by simp [hu])]
      dsimp only
      rw [hh]
      dsimp only
      rw [if_neg (by simp [ho])]
    simp [restoreLoop, hstep]
  · intro env files st hwf
    exact (restoreLoop_completes env files st hwf).1

/-- Witness for C7: with an empty object store, the entry `a.txt` with hash
`h1` is skipped with the report line, the walk continues, and a one-entry
manifest still completes without raising. -/
theorem C7_missing_object_witness :
    restoreLoop envNoObjects [("a.txt", ManifestEntry.v1 "h1")] ⟨[], [], 0, 0⟩ =
      restoreLoop envNoObjects []
        ⟨[] ++ [missingLine "h1" "a.txt"], [], 0, 0 + 1⟩ ∧
    (restoreLoop envNoObjects envNoObjects.files ⟨[], [], 0, 0⟩).2 = none :=
  ⟨C7_missing_object.1 envNoObjects ⟨[], [], 0, 0⟩ "a.txt" "h1"
      (ManifestEntry.v1 "h1") [] (by decide) rfl rfl,
   C7_missing_object.2 envNoObjects envNoObjects.files ⟨[], [], 0, 0⟩
      (by decide)⟩

/-! ### Claim C4 (amended) -/

/-- C4 (amended): on a readable, well-formed manifest (every entry carries a
hash) with its objects directory present and the vault containment check
passing, `restore_snapshot` completes without raising regardless of
per-entry failures, reports the final restored and skipped counts in its
printed end-of-run summary, accounts every entry into exactly one of the two
counters — and returns `None` to its caller (its Python return value is not
the pair of counts). -/
theorem C4_restore_reports_counts :
    ∀ (absM absD : List String) (env : RestoreEnv),
      safetyCheckE ⟨true, absM.dropLast.dropLast⟩ ⟨true, absD⟩ = none →
      env.manifestReadable = true →
      env.objectsDirExists = true →
      (∀ pe ∈ env.files, (entryHash pe.2).isSome) →
      (restore_snapshot absM absD env).2 = none ∧
      (restore_snapshot absM absD env).1.pyReturn = none ∧
      summaryLine (restore_snapshot absM absD env).1.restored
          (restore_snapshot absM absD env).1.skipped
        ∈ (restore_snapshot absM absD env).1.printed ∧
      (restore_snapshot absM absD env).1.restored
          + (restore_snapshot absM absD env).1.skipped = env.files.length := by
  intro absM absD env hsafe hr ho hwf
  have hloop := restoreLoop_completes env env.files
    ⟨["Loading manifest from: " ++ renderAbs absM,
      "Snapshot Version: " ++ toString env.version,
      "Restoring to: " ++ renderAbs absD], [], 0, 0⟩ hwf
  unfold restore_snapshot
  dsimp only
  rw [hsafe]
  dsimp only
  rw [if_pos hr, if_pos ho]
  simp only [List.cons_append, List.nil_append]
  rcases hl : restoreLoop env env.files
      ⟨["Loading manifest from: " ++ renderAbs absM,
        "Snapshot Version: " ++ toString env.version,
        "Restoring to: " ++ renderAbs absD], [], 0, 0⟩ with ⟨st, err⟩
  rw [hl] at hloop
  obtain ⟨h1, h2⟩ := hloop
  dsimp only at h1 h2
  subst h1
  dsimp only
  refine ⟨rfl, rfl, ?_, ?_⟩
  · exact List.mem_append_right _ (List.mem_singleton_self _)
  · simpa using h2

/-- Witness for the amended C4 at a concrete one-entry manifest. -/
theorem C4_restore_reports_counts_witness :
    (restore_snapshot ["v", "s", "m"] ["home", "proj"] envAllOk).2 = none ∧
    (restore_snapshot ["v", "s", "m"] ["home", "proj"] envAllOk).1.pyReturn
      = none ∧
    summaryLine
        (restore_snapshot ["v", "s", "m"] ["home", "proj"] envAllOk).1.restored
        (restore_snapshot ["v", "s", "m"] ["home", "proj"] envAllOk).1.skipped
      ∈ (restore_snapshot ["v", "s", "m"] ["home", "proj"] envAllOk).1.printed ∧
    (restore_snapshot ["v", "s", "m"] ["home", "proj"] envAllOk).1.restored
        + (restore_snapshot ["v", "s", "m"] ["home", "proj"] envAllOk).1.skipped
      = envAllOk.files.length :=
  C4_restore_reports_counts ["v", "s", "m"] ["home", "proj"] envAllOk
    (by decide) rfl rfl (by decide)

/-- C4 counterexample: `restore_snapshot` does not return the pair of counts
to its caller — at a concrete readable one-entry manifest its Python return
value is `None` (the source is annotated `-> None` and only prints the
summary), so the returned value differs from the pair of final counters. -/
theorem C4_returns_pair_counterexample :
    (restore_snapshot ["v", "s", "m"] ["home", "proj"] envAllOk).1.pyReturn ≠
      some
        ((restore_snapshot ["v", "s", "m"] ["home", "proj"] envAllOk).1.restored,
         (restore_snapshot ["v", "s", "m"] ["home", "proj"] envAllOk).1.skipped)
      ∧
    (restore_snapshot ["v", "s", "m"] ["home", "proj"] envAllOk).1.pyReturn
      = none := by
  constructor <;> decide

/-! ### Extractor lemmas -/

/-- A member of a forbidden kind is rejected by the validator (with its
kind reason, or already for an unsafe name). -/
theorem validateMember_rejects_badKind (pol : Policy) (m : Member) (r : String)
    (h : badKindReason pol m.kind = some r) :
    ∃ r', validateMember pol m = .reject r' := by
  unfold validateMember
  cases hs : sanitizeComps m.name with
  | none => exact ⟨_, rfl⟩
  | some cs =>
    dsimp only
    cases hk : m.kind <;> rw [hk] at h
    case reg | dir | unknown | xhd => simp [badKindReason] at h
    case sym | lnk | chr | blk | fifo => exact ⟨_, rfl⟩
    case gnuSparse =>
      by_cases hrs : pol.reject_sparse = true
      · rw [if_pos hrs]
        exact ⟨_, rfl⟩
      · rw [if_neg hrs]
        exact ⟨_, rfl⟩

/-- When the name sanitizes, a forbidden kind is rejected with exactly its
corresponding reason. -/
theorem validateMember_badKind_reason (pol : Policy) (m : Member) (r : String)
    (hs : (sanitizeComps m.name).isSome) (h : badKindReason pol m.kind = some r) :
    validateMember pol m = .reject r := by
  obtain ⟨cs, hcs⟩ := Option.isSome_iff_exists.mp hs
  unfold validateMember
  rw [hcs]
  dsimp only
  cases hk : m.kind <;> rw [hk] at h <;>
    simp only [badKindReason, Option.some.injEq] at h
  case reg | dir | unknown | xhd => cases h
  case sym | lnk | chr | blk | fifo => subst h; rfl
  case gnuSparse =>
    by_cases hrs : pol.reject_sparse = true
    · rw [if_pos hrs] at h ⊢
      simp only [Option.some.injEq] at h
      subst h
      rfl
    · rw [if_neg hrs] at h
      cases h

/-- An archive that contains a member the validator rejects never survives
the extraction loop. -/
theorem extractLoop_error_of_reject (pol : Policy) :
    ∀ (ms : List Member) (st : LState) (m : Member), m ∈ ms →
      (∃ r', validateMember pol m = .reject r') →
      ∃ e, extractLoop pol ms st = .error e := by
  intro ms
  induction ms with
  | nil => intro st m hm; cases hm
  | cons m0 rest ih =>
    intro st m hm hrej
    simp only [extractLoop]
    cases hp : processMember pol st m0 with
    | error e => exact ⟨e, rfl⟩
    | ok st' =>
      rcases List.mem_cons.mp hm with rfl | hm'
      · obtain ⟨r', hr'⟩ := hrej
        rw [processMember, hr'] at hp
        cases hp
      · exact ih st' m hm' hrej

/-- The extraction loop splits over list concatenation. -/
theorem extractLoop_append (pol : Policy) :
    ∀ (xs ys : List Member) (st : LState),
      extractLoop pol (xs ++ ys) st =
        match extractLoop pol xs st with
        | .error e => .error e
        | .ok st' => extractLoop pol ys st' := by
  intro xs
  induction xs with
  | nil => intro ys st; rfl
  | cons x xs ih =>
    intro ys st
    simp only [List.cons_append, extractLoop]
    cases processMember pol st x with
    | error e => rfl
    | ok st' => exact ih ys st'

/-! ### Claim C3 -/

/-- C3: an archive containing a symlink, hardlink, character-device,
block-device, fifo, or (when `reject_sparse`) sparse member never extracts:
`safe_extract_atomic` fails, the destination is byte-for-byte unchanged
(the whole observable filesystem is returned untouched), and — whenever the
forbidden member is the one at which the sequential pass fails — the error
is a `PolicyViolation` carrying exactly the corresponding rejection
reason. -/
theorem C3_forbidden_member_kinds :
    ∀ (archive : List Member) (pol : Policy) (env : ExtractEnv)
      (destName : String) (fs : FS) (m : Member) (r : String),
      m ∈ archive → badKindReason pol m.kind = some r →
      (∃ e, (safe_extract_atomic archive pol env destName fs).result =
        .error e) ∧
      (safe_extract_atomic archive pol env destName fs).fs = fs ∧
      ((sanitizeComps m.name).isSome →
        ∀ (pre post : List Member) (st : LState),
          archive = pre ++ m :: post →
          extractLoop pol pre ⟨0, 0, []⟩ = .ok st →
          env.archiveExists = true → env.stagingExists = false →
          (safe_extract_atomic archive pol env destName fs).result =
            .error (.policy r)) := by
  intro archive pol env destName fs m r hm hbad
  have hrej := validateMember_rejects_badKind pol m r hbad
  obtain ⟨e, he⟩ :=
    extractLoop_error_of_reject pol archive ⟨0, 0, []⟩ m hm hrej
  refine ⟨?_, ?_, ?_⟩
  · by_cases ha : env.archiveExists = true
    · by_cases hs : env.stagingExists = true
      · exact ⟨.conflict "Temp extraction dir unexpectedly exists",
          by simp [safe_extract_atomic, ha, hs]⟩
      · exact ⟨e, by simp [safe_extract_atomic, ha, hs, he]⟩
    · exact ⟨.notFound "Archive not found",
        by simp [safe_extract_atomic, ha]⟩
  · by_cases ha : env.archiveExists = true
    · by_cases hs : env.stagingExists = true
      · simp [safe_extract_atomic, ha, hs]
      · simp [safe_extract_atomic, ha, hs, he]
    · simp [safe_extract_atomic, ha]
  · intro hsome pre post st harch hpre ha hstg
    have hv := validateMember_badKind_reason pol m r hsome hbad
    have hp : processMember pol st m = .error (.policy r) := by
      unfold processMember
      rw [hv]
    have hl : extractLoop pol archive ⟨0, 0, []⟩ = .error (.policy r) := by
      rw [harch, extractLoop_append pol pre (m :: post) ⟨0, 0, []⟩, hpre]
      simp only [extractLoop, hp]
    simp [safe_extract_atomic, ha, hstg, hl]

/-- Witness for C3: a one-member archive holding a symlink is rejected with
the symlink reason and leaves the (empty) destination untouched. -/
theorem C3_forbidden_member_kinds_witness :
    (∃ e, (safe_extract_atomic [memLink] polDefault exEnvOk "dest"
      fsEmpty).result = .error e) ∧
    (safe_extract_atomic [memLink] polDefault exEnvOk "dest" fsEmpty).fs
      = fsEmpty ∧
    (safe_extract_atomic [memLink] polDefault exEnvOk "dest" fsEmpty).result =
      .error (.policy "Tar contains symlink/hardlink member") := by
  have h := C3_forbidden_member_kinds [memLink] polDefault exEnvOk "dest"
    fsEmpty memLink "Tar contains symlink/hardlink member"
    (List.mem_cons_self _ _) rfl
  exact ⟨h.1, h.2.1, h.2.2 (by decide) [] [] ⟨0, 0, []⟩ rfl rfl rfl rfl⟩

/-! ### Claim C5 -/

/-- C5: the running file count and running cumulative declared-size total
are checked before writing each accepted regular file; once the count
exceeds `max_files` the whole restore aborts with the distinct error
"Archive exceeds max-files limit", once the cumulative size exceeds
`max_bytes` it aborts with "Archive exceeds max-bytes limit", and in both
cases the observable filesystem is returned untouched: the staging content
is abandoned and never swapped into the destination. -/
theorem C5_resource_limits :
    ∀ (pol : Policy) (env : ExtractEnv) (destName : String) (fs : FS)
      (pre post : List Member) (m : Member) (st : LState) (p : String),
      extractLoop pol pre ⟨0, 0, []⟩ = .ok st →
      validateMember pol m = .acceptFile p →
      env.archiveExists = true → env.stagingExists = false →
      (overLimit pol.max_files (st.count + 1) = true →
        (safe_extract_atomic (pre ++ m :: post) pol env destName fs).result =
          .error (.resourceLimit "Archive exceeds max-files limit") ∧
        (safe_extract_atomic (pre ++ m :: post) pol env destName fs).fs = fs) ∧
      (overLimit pol.max_files (st.count + 1) = false →
       overLimit pol.max_bytes (st.bytes + m.size) = true →
        (safe_extract_atomic (pre ++ m :: post) pol env destName fs).result =
          .error (.resourceLimit "Archive exceeds max-bytes limit") ∧
        (safe_extract_atomic (pre ++ m :: post) pol env destName fs).fs = fs)
      := by
  intro pol env destName fs pre post m st p hpre hv ha hstg
  constructor
  · intro hlim
    have hp : processMember pol st m =
        .error (.resourceLimit "Archive exceeds max-files limit") := by
      unfold processMember
      rw [hv]
      dsimp only
      rw [if_pos hlim]
    have hl : extractLoop pol (pre ++ m :: post) ⟨0, 0, []⟩ =
        .error (.resourceLimit "Archive exceeds max-files limit") := by
      rw [extractLoop_append pol pre (m :: post) ⟨0, 0, []⟩, hpre]
      simp only [extractLoop, hp]
    constructor <;> simp [safe_extract_atomic, ha, hstg, hl]
  · intro hfok hlim
    have hp : processMember pol st m =
        .error (.resourceLimit "Archive exceeds max-bytes limit") := by
      unfold processMember
      rw [hv]
      dsimp only
      rw [if_neg (by simp [hfok]), if_pos hlim]
    have hl : extractLoop pol (pre ++ m :: post) ⟨0, 0, []⟩ =
        .error (.resourceLimit "Archive exceeds max-bytes limit") := by
      rw [extractLoop_append pol pre (m :: post) ⟨0, 0, []⟩, hpre]
      simp only [extractLoop, hp]
    constructor <;> simp [safe_extract_atomic, ha, hstg, hl]

/-- Witness for C5: the two-file test archive against `max_files = 1`
aborts with the max-files error, and against `max_bytes = 15` (file sizes
20 and 5) aborts with the max-bytes error already at the first file;
both leave the destination untouched. -/
theorem C5_resource_limits_witness :
    (safe_extract_atomic [memFile1, memExtra] ⟨some 1, none, false, true, false⟩
        exEnvOk "dest" fsOld).result =
      .error (.resourceLimit "Archive exceeds max-files limit") ∧
    (safe_extract_atomic [memFile1, memExtra] ⟨some 1, none, false, true, false⟩
        exEnvOk "dest" fsOld).fs = fsOld ∧
    (safe_extract_atomic [memFile1, memExtra] ⟨none, some 15, false, true, false⟩
        exEnvOk "dest" fsOld).result =
      .error (.resourceLimit "Archive exceeds max-bytes limit") := by
  refine ⟨?_, ?_, ?_⟩
  · exact ((C5_resource_limits ⟨some 1, none, false, true, false⟩ exEnvOk "dest"
      fsOld [memFile1] [] memExtra ⟨1, 20, [⟨"mydir/file.txt", false, 20,
        stripDangerous (effectiveMode 420), 5⟩]⟩ "extra.txt"
      rfl (by decide) rfl rfl).1 (by decide)).1
  · exact ((C5_resource_limits ⟨some 1, none, false, true, false⟩ exEnvOk "dest"
      fsOld [memFile1] [] memExtra ⟨1, 20, [⟨"mydir/file.txt", false, 20,
        stripDangerous (effectiveMode 420), 5⟩]⟩ "extra.txt"
      rfl (by decide) rfl rfl).1 (by decide)).2
  · exact ((C5_resource_limits ⟨none, some 15, false, true, false⟩ exEnvOk "dest"
      fsOld [] [memExtra] memFile1 ⟨0, 0, []⟩ "mydir/file.txt"
      rfl (by decide) rfl rfl).2 (by decide) (by decide)).1

/-! ### Claim C1 -/

/-- C1: when the destination exists before the call and the final rename of
the atomic swap (staging → destination) fails, `safe_extract_atomic` raises,
and afterwards either the destination holds exactly its pre-call content
(the backup was renamed back — rollback succeeded), or, when that rollback
rename also fails, the pre-call content is still at the backup path and the
reported error log names that exact backup path. -/
theorem C1_swap_rollback :
    ∀ (archive : List Member) (pol : Policy) (env : ExtractEnv)
      (destName : String) (fs : FS) (old : List StagedEntry) (st : LState),
      env.archiveExists = true → env.stagingExists = false →
      pol.dry_run = false →
      extractLoop pol archive ⟨0, 0, []⟩ = .ok st →
      fs.dest = some old →
      env.renameOldOk = true → env.renameNewOk = false →
      (∃ msg, (safe_extract_atomic archive pol env destName fs).result =
        .error (.swapFail msg)) ∧
      (env.rollbackOk = true →
        (safe_extract_atomic archive pol env destName fs).fs.dest = some old) ∧
      (env.rollbackOk = false →
        (safe_extract_atomic archive pol env destName fs).fs.backup = some old ∧
        rollbackFailLog (backupName destName env.pid env.ts)
          ∈ (safe_extract_atomic archive pol env destName fs).logs) := by
  intro archive pol env destName fs old st ha hs hdry hl hfd hro hrn
  have hred : safe_extract_atomic archive pol env destName fs =
      swapPhase env destName fs st.tree := by
    unfold safe_extract_atomic
    rw [if_pos ha, if_neg (by simp [hs]), hl]
    dsimp only
    rw [if_neg (by simp [hdry])]
  rw [hred]
  unfold swapPhase
  rw [hfd]
  dsimp only
  rw [if_pos hro, if_neg (by simp [hrn])]
  by_cases hrb : env.rollbackOk = true
  · rw [if_pos hrb]
    exact ⟨⟨_, rfl⟩, fun _ => rfl, fun hcon => by rw [hcon] at hrb; cases hrb⟩
  · rw [if_neg hrb]
    refine ⟨⟨_, rfl⟩, fun hcon => absurd hcon hrb, fun _ => ⟨rfl, ?_⟩⟩
    exact List.mem_cons_of_mem _ (List.mem_singleton_self _)

/-- Witness for C1: an empty archive over an existing destination with the
swap rename and the rollback rename both failing leaves the pre-call
content at the deterministic backup path and logs that path. -/
theorem C1_swap_rollback_witness :
    (∃ msg, (safe_extract_atomic [] polDefault exEnvRollFail "extract_here"
      fsOld).result = .error (.swapFail msg)) ∧
    (safe_extract_atomic [] polDefault exEnvRollFail "extract_here"
      fsOld).fs.backup = some oldTree ∧
    rollbackFailLog (backupName "extract_here" 999 1234567890)
      ∈ (safe_extract_atomic [] polDefault exEnvRollFail "extract_here"
          fsOld).logs := by
  have h := C1_swap_rollback [] polDefault exEnvRollFail "extract_here" fsOld
    oldTree ⟨0, 0, []⟩ rfl rfl rfl rfl rfl rfl rfl
  exact ⟨h.1, (h.2.2 rfl).1, (h.2.2 rfl).2⟩

/-! ### Claim C9 -/

/-- Stripping the dangerous bits really clears the 0o2000 (bit 10, set-gid)
and 0o4000 (bit 11, set-uid) positions: the quotient by 1024 is divisible
by 4. -/
theorem stripDangerous_clears (m : Nat) : stripDangerous m / 1024 % 4 = 0 := by
  unfold stripDangerous
  omega

/-- Every regular-file entry the extraction loop stages has its set-uid and
set-gid bits stripped. -/
theorem extractLoop_modes (pol : Policy) :
    ∀ (ms : List Member) (st st' : LState),
      (∀ en ∈ st.tree, en.isDir = false → en.mode / 1024 % 4 = 0) →
      extractLoop pol ms st = .ok st' →
      ∀ en ∈ st'.tree, en.isDir = false → en.mode / 1024 % 4 = 0 := by
  intro ms
  induction ms with
  | nil =>
    intro st st' hinv h
    simp only [extractLoop, Except.ok.injEq] at h
    subst h
    exact hinv
  | cons m rest ih =>
    intro st st' hinv h
    simp only [extractLoop] at h
    cases hp : processMember pol st m with
    | error e => rw [hp] at h; cases h
    | ok st1 =>
      rw [hp] at h
      apply ih st1 st' _ h
      unfold processMember at hp
      cases hv : validateMember pol m with
      | reject r => rw [hv] at hp; cases hp
      | skip =>
        rw [hv] at hp
        simp only [Except.ok.injEq] at hp
        subst hp
        exact hinv
      | acceptDir p =>
        rw [hv] at hp
        simp only [Except.ok.injEq] at hp
        subst hp
        intro en hen hdir
        rcases List.mem_append.mp hen with h' | h'
        · exact hinv en h' hdir
        · rw [List.mem_singleton] at h'
          subst h'
          cases hdir
      | acceptFile p =>
        rw [hv] at hp
        dsimp only at hp
        split at hp
        · cases hp
        · split at hp
          · cases hp
          · simp only [Except.ok.injEq] at hp
            subst hp
            intro en hen hdir
            rcases List.mem_append.mp hen with h' | h'
            · exact hinv en h' hdir
            · rw [List.mem_singleton] at h'
              subst h'
              exact stripDangerous_clears _

/-- C9: after a successful live (non-dry-run) archive restore, every
regular-file entry of the destination tree has the set-uid and set-gid
permission bits absent from its final mode, whatever mode the archive
declared. -/
theorem C9_no_setuid_setgid :
    ∀ (archive : List Member) (pol : Policy) (env : ExtractEnv)
      (destName : String) (fs : FS) (t : List StagedEntry),
      pol.dry_run = false →
      (safe_extract_atomic archive pol env destName fs).result = .ok () →
      (safe_extract_atomic archive pol env destName fs).fs.dest = some t →
      ∀ en ∈ t, en.isDir = false → en.mode / 1024 % 4 = 0 := by
  intro archive pol env destName fs t hdry hok hdest
  unfold safe_extract_atomic at hok hdest
  by_cases ha : env.archiveExists = true
  · rw [if_pos ha] at hok hdest
    by_cases hs : env.stagingExists = true
    · rw [if_pos hs] at hok
      cases hok
    · rw [if_neg hs] at hok hdest
      cases hl : extractLoop pol archive ⟨0, 0, []⟩ with
      | error e =>
        rw [hl] at hok
        cases hok
      | ok stf =>
        rw [hl] at hok hdest
        dsimp only at hok hdest
        rw [if_neg (by simp [hdry])] at hok hdest
        have hmodes := extractLoop_modes pol archive ⟨0, 0, []⟩ stf
          (by intro en hen; cases hen) hl
        unfold swapPhase at hok hdest
        cases hfd : fs.dest with
        | none =>
          rw [hfd] at hok hdest
          dsimp only at hok hdest
          by_cases hrn : env.renameNewOk = true
          · rw [if_pos hrn] at hdest
            dsimp only at hdest
            simp only [Option.some.injEq] at hdest
            subst hdest
            exact hmodes
          · rw [if_neg hrn] at hok
            cases hok
        | some old =>
          rw [hfd] at hok hdest
          dsimp only at hok hdest
          by_cases hro : env.renameOldOk = true
          · rw [if_pos hro] at hok hdest
            by_cases hrn : env.renameNewOk = true
            · rw [if_pos hrn] at hok hdest
              by_cases hrm : env.rmBackupOk = true
              · rw [if_pos hrm] at hdest
                dsimp only at hdest
                simp only [Option.some.injEq] at hdest
                subst hdest
                exact hmodes
              · rw [if_neg hrm] at hdest
                dsimp only at hdest
                simp only [Option.some.injEq] at hdest
                subst hdest
                exact hmodes
            · rw [if_neg hrn] at hok
              by_cases hrb : env.rollbackOk = true
              · rw [if_pos hrb] at hok
                cases hok
              · rw [if_neg hrb] at hok
                cases hok
          · rw [if_neg hro] at hok
            cases hok
  · rw [if_neg ha] at hok
    cases hok

/-- Witness for C9: restoring an archive whose file declares mode 0o6755
yields the file staged with mode 0o755 — the quotient-by-1024 test confirms
the set-uid/set-gid bits are clear on the concrete final entry. -/
theorem C9_no_setuid_setgid_witness :
    (StagedEntry.mk "d/f.txt" false 2 493 5).mode / 1024 % 4 = 0 :=
  C9_no_setuid_setgid [memDir, memSuid] polDefault exEnvOk "dest" fsEmpty
    [⟨"d", true, 0, 493, 5⟩, ⟨"d/f.txt", false, 2, 493, 5⟩]
    rfl rfl rfl ⟨"d/f.txt", false, 2, 493, 5⟩ (by decide) rfl

/-! ### Claim C8 -/

/-- C8: with an existing lock file whose recorded process id is readable —
if the recorded process is alive, acquisition fails immediately with the
lock-contention exit code 3; if it is dead and the file's age is at least
the staleness threshold, the stale file is removed and the single retry
succeeds, leaving a lock file holding the new caller's process id; if it is
dead but the file is younger than the threshold, acquisition fails with
exit code 3. -/
theorem C8_pid_lock :
    ∀ (env : LockEnv) (stale : Nat) (lf : LockFile) (p : Nat),
      env.existing = some lf → lf.pid = some p →
      (env.alive p = true → create_pid_lock env stale = .exitCode 3) ∧
      (env.alive p = false → stale ≤ env.now - lf.mtime →
        env.removeOk = true →
        create_pid_lock env stale = .acquired ⟨some env.callerPid, env.now⟩) ∧
      (env.alive p = false → env.now - lf.mtime < stale →
        create_pid_lock env stale = .exitCode 3) := by
  intro env stale lf p hex hpid
  unfold create_pid_lock
  rw [hex]
  dsimp only
  rw [hpid]
  refine ⟨?_, ?_, ?_⟩
  · intro hal
    rw [if_pos hal]
  · intro hal hage hrm
    rw [if_neg (by simp [hal]), if_pos hage, if_pos hrm]
  · intro hal hyoung
    rw [if_neg (by simp [hal]), if_neg (by omega)]

/-- Witness for C8 at the three concrete lock environments: a live owner
fails with exit code 3; a dead owner with age 4000 ≥ 3600 yields the lock
with the caller's pid 777; a dead owner with age 1000 < 3600 fails. -/
theorem C8_pid_lock_witness :
    create_pid_lock lockEnvAlive 3600 = .exitCode 3 ∧
    create_pid_lock lockEnvStale 3600 = .acquired ⟨some 777, 4100⟩ ∧
    create_pid_lock lockEnvYoung 3600 = .exitCode 3 :=
  ⟨(C8_pid_lock lockEnvAlive 3600 ⟨some 99999, 100⟩ 99999 rfl rfl).1 rfl,
   (C8_pid_lock lockEnvStale 3600 ⟨some 12345, 100⟩ 12345 rfl rfl).2.1 rfl
     (by decide) rfl,
   (C8_pid_lock lockEnvYoung 3600 ⟨some 12345, 100⟩ 12345 rfl rfl).2.2 rfl
     (by decide)⟩

/-! ### Claim C2 -/

/-- The normalizer never emits an empty or `.` component. -/
theorem normStack_comps_ne (rel : Bool) (cs : List String) :
    ∀ c ∈ normStack rel cs, c ≠ "" ∧ c ≠ "." := by
  suffices hgen : ∀ s : List String, (∀ c ∈ s, c ≠ "" ∧ c ≠ ".") →
      ∀ c ∈ cs.foldl (normPush rel) s, c ≠ "" ∧ c ≠ "." by
    exact hgen [] (by intro c hc; cases hc)
  induction cs with
  | nil => intro s hs; exact hs
  | cons c0 cs ih =>
    intro s hs
    simp only [List.foldl_cons]
    apply ih
    intro c hc
    by_cases h0 : c0 = "" ∨ c0 = "."
    · rw [show normPush rel s c0 = s from by simp [normPush, h0]] at hc
      exact hs c hc
    · by_cases h1 : c0 = ".."
      · subst h1
        cases s with
        | nil =>
          rw [show normPush rel [] ".." = if rel then [".."] else [] from by
                simp [normPush, h0]] at hc
          by_cases hr : rel = true
          · rw [if_pos hr] at hc
            rw [List.mem_singleton] at hc
            subst hc
            exact ⟨by decide, by decide⟩
          · rw [if_neg hr] at hc
            cases hc
        | cons top rest =>
          by_cases ht : top = ".."
          · rw [show normPush rel (top :: rest) ".." = ".." :: top :: rest
                  from by simp [normPush, h0, ht]] at hc
            rcases List.mem_cons.mp hc with rfl | hc'
            · exact ⟨by decide, by decide⟩
            · exact hs c hc'
          · rw [show normPush rel (top :: rest) ".." = rest from by
                  simp [normPush, h0, ht]] at hc
            exact hs c (List.mem_cons_of_mem _ hc)
      · rw [show normPush rel s c0 = c0 :: s from by
              simp [normPush, h0, h1]] at hc
        rcases List.mem_cons.mp hc with rfl | hc'
        · push_neg at h0
          exact h0
        · exact hs c hc'

/-- Absolute normalization of a list of good components is the identity. -/
theorem normComps_abs_of_good (xs : List String)
    (h : ∀ c ∈ xs, goodComp c = true) : normComps false xs = xs := by
  unfold normComps normStack
  rw [normFold_goodComps false xs h []]
  simp

/-- C2: the sanitizer rejects a nonempty raw name exactly when the normal
form of the name (after stripping any leading separator) starts with a
parent-traversal segment; the empty name is rejected; an absolute name has
its leading separator stripped and the remainder treated as relative rather
than being rejected (concretely, `/absolute ↦ absolute` while `/../foo` is
rejected for its traversal, not its absoluteness); and every emitted
sanitized path is traversal-free — its components resolve below any
normalized destination unchanged. -/
theorem C2_sanitize_member_name_policy :
    (∀ name : String, name ≠ "" →
      (sanitizeComps name = none ↔
        (normComps true (posixSplit (dropLeadingSlashes name))).head? =
          some "..")) ∧
    _sanitize_member_name "" = none ∧
    (_sanitize_member_name "/absolute" = some "absolute" ∧
     _sanitize_member_name "/../foo" = none) ∧
    (∀ (name : String) (cs : List String), sanitizeComps name = some cs →
      ".." ∉ cs ∧
      ∀ ds : List String, (∀ c ∈ ds, goodComp c = true) →
        normComps false (ds ++ cs) = ds ++ cs) := by
  refine ⟨?_, by decide, ⟨by decide, by decide⟩, ?_⟩
  · intro name hname
    unfold sanitizeComps
    rw [if_neg hname]
    dsimp only
    by_cases hh : (normComps true (posixSplit (dropLeadingSlashes name))).head?
        = some ".."
    · rw [if_pos hh]
      exact ⟨fun _ => hh, fun _ => rfl⟩
    · rw [if_neg hh]
      exact ⟨fun h => Option.noConfusion h, fun h => absurd h hh⟩
  · intro name cs h
    unfold sanitizeComps at h
    by_cases hname : name = ""
    · rw [if_pos hname] at h
      cases h
    · rw [if_neg hname] at h
      dsimp only at h
      by_cases hh : (normComps true (posixSplit (dropLeadingSlashes name))).head?
          = some ".."
      · rw [if_pos hh] at h
        cases h
      · rw [if_neg hh] at h
        simp only [Option.some.injEq] at h
        subst h
        have hnd : ".." ∉ normComps true (posixSplit (dropLeadingSlashes name)) :=
          no_dotdot_of_head _ hh
        refine ⟨hnd, ?_⟩
        intro ds hds
        have hcs_good : ∀ c ∈ normComps true (posixSplit (dropLeadingSlashes name)),
            goodComp c = true := by
          intro c hc
          have h1 := normStack_comps_ne true (posixSplit (dropLeadingSlashes name))
            c (by simpa [normComps] using hc)
          have h2 : c ≠ ".." := fun hc2 => hnd (hc2 ▸ hc)
          simp [goodComp, h1.1, h1.2, h2]
        have hall : ∀ c ∈ ds ++ normComps true (posixSplit (dropLeadingSlashes name)),
            goodComp c = true := by
          intro c hc
          rcases List.mem_append.mp hc with h' | h'
          · exact hds c h'
          · exact hcs_good c h'
        exact normComps_abs_of_good _ hall

/-- Witness for C2 at the traversal, empty, absolute and accepted test
vectors, with the accepted key `dir/../safe ↦ [safe]` resolving unchanged
below the destination `/home`. -/
theorem C2_sanitize_member_name_policy_witness :
    sanitizeComps "../traversal" = none ∧
    _sanitize_member_name "" = none ∧
    _sanitize_member_name "/absolute" = some "absolute" ∧
    (".." ∉ ["safe"] ∧
     normComps false (["home"] ++ ["safe"]) = ["home"] ++ ["safe"]) :=
  ⟨(C2_sanitize_member_name_policy.1 "../traversal" (by decide)).mpr (by decide),
   C2_sanitize_member_name_policy.2.1,
   C2_sanitize_member_name_policy.2.2.1.1,
   ⟨(C2_sanitize_member_name_policy.2.2.2 "dir/../safe" ["safe"] (by decide)).1,
    (C2_sanitize_member_name_policy.2.2.2 "dir/../safe" ["safe"]
      (by decide)).2 ["home"] (by decide)⟩⟩

end ProjectRestore
